import Mathlib

/-!
Verification of the retrieval core of the All-in-one-chatbot repository.

This file gives a shallow embedding of the retrieval engine:
- `DocumentProcessor.chunk_text` and `DocumentProcessor.process_document`
  (backend/rag_service/document_processor.py),
- `VectorStore` and its operations (backend/rag_service/vector_store.py),
- `RAGEngine.ingest_document`, `retrieve_context`, `generate_answer`, `query`
  (backend/rag_service/rag_engine.py),
and proves or refutes the listed claims about them.

Modelling conventions:
- Python floats (vector components and distances) are modelled as exact
  integers: no claim here depends on rounding or on non-integer values, the
  claims use only ordered-ring structure, and exact integers keep every
  concrete run computable by the kernel.  FAISS `IndexFlatL2` is modelled by
  exact squared-L2 brute-force search with the documented padding behaviour
  (labels `-1`, distance `FLT_MAX`) when fewer than `k` rows are stored.
- The external `SentenceTransformer.encode` embedder is a parameter
  (`encode : String → Except PyErr Vec`), applied textwise to a batch with
  first-failure semantics, as the embedder contract promises one output
  vector per input in order.
- Code that can raise returns `Except PyErr _`; an `Except.error` models a
  raised Python exception.  Every raise site in `add_documents` precedes the
  mutation of `self.index` / `self.documents`, so an error result standing
  for "the store is unchanged" is faithful to the source order.  The one
  place the source can mutate and then raise (reading the metadata artifact
  failing after the index artifact was already read in `load`) is noted at
  the `load` definition.
- `chunk_text`'s `while` loop is modelled with explicit fuel (`chunkLoopF`);
  `chunkLoopF fuel = none` for every `fuel` means the source loop never
  terminates.
-/

/-- A dense embedding vector (row of the FAISS index), exact numbers. -/
abbrev Vec := List Int

/-- Python exceptions that the modelled code can raise. -/
inductive PyErr where
  | valueError (msg : String)
  | indexError
  | dimensionError
  | faissReadError
  | pickleLoadError
  | embedError (msg : String)
  deriving DecidableEq

/-- `str(e)` for the modelled exceptions. -/
def PyErr.message : PyErr → String
  | .valueError m => m
  | .indexError => "list index out of range"
  | .dimensionError => "assert d == self.d"
  | .faissReadError => "could not read index"
  | .pickleLoadError => "unpickling error"
  | .embedError m => m

/-- The metadata dict attached to one stored chunk: either the empty dict
the source synthesizes, or the `{filename, file_type, chunk_index}` record
built by `RAGEngine.ingest_document`. -/
inductive MetaDict where
  | empty
  | chunkMeta (filename : String) (file_type : String) (chunk_index : Nat)
  deriving DecidableEq

/-- `doc[2].get("filename", "unknown")` from `RAGEngine.generate_answer`. -/
def MetaDict.getFilename : MetaDict → String
  | .empty => "unknown"
  | .chunkMeta f _ _ => f

/-- `doc[2].get("chunk_index", 0)` from `RAGEngine.generate_answer`. -/
def MetaDict.getChunkIndex : MetaDict → Nat
  | .empty => 0
  | .chunkMeta _ _ i => i

/-- One entry of `VectorStore.documents`: `{"text": ..., "metadata": ...}`. -/
structure DocRec where
  text : String
  metadata : MetaDict
  deriving DecidableEq

/-- A FAISS `IndexFlatL2`: its fixed dimension `d` and its stored rows. -/
structure FaissIndex where
  d : Nat
  rows : List Vec
  deriving DecidableEq

/-- Contents of one persisted artifact file. -/
inductive FileContent where
  | indexFile (ix : FaissIndex)
  | docsFile (ds : List DocRec)
  deriving DecidableEq

/-- The file system seen by `save`/`load`, a map from path to contents. -/
def FS := String → Option FileContent

/-- The dictionary returned by `VectorStore.get_stats`. -/
structure Stats where
  total_documents : Nat
  index_size : Nat
  embedding_dimension : Nat
  embedding_model : String
  deriving DecidableEq

/-- The `VectorStore` object: pinned embedding model name, its dimension,
the (external) encoder, the FAISS index and the parallel metadata list. -/
structure VectorStore where
  embedding_model_name : String
  dimension : Nat
  encode : String → Except PyErr Vec
  index : FaissIndex
  documents : List DocRec

/-- `VectorStore.__init__`: empty `IndexFlatL2(dimension)`, empty documents. -/
def VectorStore.init (name : String) (dim : Nat)
    (enc : String → Except PyErr Vec) : VectorStore :=
  ⟨name, dim, enc, ⟨dim, []⟩, []⟩

/-! ## Chunker (`DocumentProcessor.chunk_text`) -/

/-- Python `text[a:b]` for the nonnegative offsets produced by the chunking
loop (on every terminating run the loop's `start` stays nonnegative, so the
negative-offset slice semantics of Python is never observable in a result). -/
def pySlice (text : List Char) (a b : Int) : List Char :=
  (text.drop a.toNat).take (b - a).toNat

/-- The `while start < text_length` loop of `chunk_text`, with explicit fuel.
`start` is an `Int` because with `overlap > chunk_size` the Python `start`
decreases below zero.  `none` means the fuel was exhausted with the loop
still running; the source appends the chunk for the current `start` and then
advances by `chunk_size - overlap`. -/
def chunkLoopF (text : List Char) (cs ov : Nat) : Nat → Int → Option (List (List Char))
  | 0, start => if start < (text.length : Int) then none else some []
  | fuel + 1, start =>
    if start < (text.length : Int) then
      match chunkLoopF text cs ov fuel (start + ((cs : Int) - (ov : Int))) with
      | none => none
      | some rest => some (pySlice text start (start + (cs : Int)) :: rest)
    else some []

/-- `DocumentProcessor.chunk_text(text, chunk_size, overlap)`.  Fuel
`text.length + 1` covers every terminating run (at most one iteration per
character when the step is positive); divergent runs yield `none`. -/
def DocumentProcessor.chunk_text (text : List Char) (chunk_size overlap : Nat) :
    Option (List (List Char)) :=
  chunkLoopF text chunk_size overlap (text.length + 1) 0

/-- The chunking loop does not terminate on the given arguments: no fuel
bound suffices. -/
def ChunkDiverges (text : List Char) (cs ov : Nat) : Prop :=
  ∀ fuel, chunkLoopF text cs ov fuel 0 = none

/-- Closed form of the terminating chunking loop: chunks taken at
`start, start + s, start + 2*s, ...` while `start` is inside the text. -/
def chunksFrom (text : List Char) (cs s : Nat) (start : Nat) : List (List Char) :=
  if _h : 0 < s ∧ start < text.length then
    ((text.drop start).take cs) :: chunksFrom text cs s (start + s)
  else []
termination_by text.length - start
decreasing_by omega

/-! ## Extraction dispatch (`DocumentProcessor.process_document`) -/

/-- Splitting a character list at every occurrence of a separator, as
Python `str.split(sep)` does for a one-character separator (structural, so
the kernel can evaluate it on literals). -/
def splitListOn (c : Char) (l : List Char) : List (List Char) :=
  l.foldr
    (fun ch acc =>
      match acc with
      | [] => [[ch]]
      | a :: rest => if ch = c then [] :: a :: rest else (ch :: a) :: rest)
    [[]]

/-- `os.path.basename`: the part of the path after the last `/`. -/
def pyBasename (p : String) : String :=
  String.mk ((splitListOn '/' p.toList).getLastD p.toList)

/-- `str.lower()`, characterwise. -/
def pyLower (s : String) : String :=
  String.mk (s.toList.map Char.toLower)

/-- `pathlib.Path(p).suffix`: the final `"."`-suffix of the basename, empty
when there is no dot, when the only dot is leading, or when the name ends in
a dot (pathlib: `name[i:]` for `i = name.rfind('.')` only if `0 < i < len-1`). -/
def pySuffix (p : String) : String :=
  let name := (splitListOn '/' p.toList).getLastD p.toList
  let parts := splitListOn '.' name
  if parts.length ≤ 1 then ""
  else if parts.getLastD [] = [] then ""
  else if name.head? = some '.' ∧ parts.length = 2 then ""
  else String.mk ('.' :: parts.getLastD [])

/-- The keys of the `extractors` dict in `process_document`. -/
def supportedExts : List String := [".pdf", ".docx", ".xlsx", ".xls", ".csv", ".txt"]

/-- The dict `process_document` returns: filename, extracted text, file type. -/
structure DocData where
  filename : String
  text : String
  file_type : String
  deriving DecidableEq

/-- `DocumentProcessor.process_document(file_path)`.  The per-format
extractors are external I/O collaborators, passed in as
`extractors ext path`; an unsupported extension raises `ValueError`. -/
def DocumentProcessor.process_document
    (extractors : String → String → Except PyErr String) (file_path : String) :
    Except PyErr DocData :=
  let ext := pyLower (pySuffix file_path)
  if supportedExts.contains ext then
    (extractors ext file_path).map fun t => ⟨pyBasename file_path, t, ext⟩
  else
    .error (.valueError ("Unsupported file type: " ++ ext))

/-! ## VectorStore operations -/

/-- The batch call `self.embedding_model.encode(texts)`: one vector per text,
in order, first failure aborting the whole batch. -/
def encodeAll (enc : String → Except PyErr Vec) : List String → Except PyErr (List Vec)
  | [] => .ok []
  | t :: ts =>
    match enc t with
    | .error e => .error e
    | .ok v =>
      match encodeAll enc ts with
      | .error e => .error e
      | .ok vs => .ok (v :: vs)

/-- The `for i, text in enumerate(texts)` loop body of `add_documents`:
`metadata[i] if metadata and i < len(metadata) else {}` paired with the text.
`List.getD` returns the empty dict both when `metadata` is `[]` (falsy in
Python) and when `i` is past its end. -/
def mkDocs (md : Option (List MetaDict)) : Nat → List String → List DocRec
  | _, [] => []
  | i, t :: ts =>
    ⟨t, match md with | some m => m.getD i MetaDict.empty | none => MetaDict.empty⟩
      :: mkDocs md (i + 1) ts

/-- `VectorStore.add_documents(texts, metadata)`.  Empty input is a warned
no-op; otherwise the batch is embedded (any failure raises before mutation),
`index.add` asserts every row has the index dimension, then the rows and the
metadata records are appended in the same order. -/
def VectorStore.add_documents (st : VectorStore) (texts : List String)
    (metadata : Option (List MetaDict)) : Except PyErr VectorStore :=
  if texts.isEmpty then .ok st
  else
    match encodeAll st.encode texts with
    | .error e => .error e
    | .ok embeddings =>
      if embeddings.any (fun v => v.length ≠ st.index.d) then
        .error .dimensionError
      else
        .ok { st with
                index := ⟨st.index.d, st.index.rows ++ embeddings⟩,
                documents := st.documents ++ mkDocs metadata 0 texts }

/-- Squared Euclidean distance as computed by `IndexFlatL2`. -/
def sqL2 (a b : Vec) : Int :=
  ((a.zip b).map (fun p => (p.1 - p.2) * (p.1 - p.2))).sum

/-- `FLT_MAX`, the distance FAISS uses to pad missing results. -/
def fltMax : Int := ((2 ^ 128 - 2 ^ 104 : Nat) : Int)

/-- `faiss.IndexFlatL2.search(q, k)` for one query: the `min(k, ntotal)`
nearest rows by squared L2 distance, ascending (ties by row id), padded with
label `-1` and distance `FLT_MAX` up to length `k`; asserts the query
dimension matches the index dimension. -/
def faissSearch (ix : FaissIndex) (q : Vec) (k : Nat) : Except PyErr (List (Int × Int)) :=
  if q.length ≠ ix.d then .error .dimensionError
  else
    let scored := ix.rows.enum.map fun p => ((p.1 : Int), sqL2 q p.2)
    let sorted :=
      scored.insertionSort fun a b => a.2 < b.2 ∨ (a.2 = b.2 ∧ a.1 ≤ b.1)
    .ok (sorted.take k ++ List.replicate (k - ix.rows.length) ((-1 : Int), fltMax))

/-- Python list indexing `l[i]` with negative-index wrap-around and
`IndexError` out of range. -/
def pyGet (l : List DocRec) (i : Int) : Except PyErr DocRec :=
  let j : Int := if i < 0 then (l.length : Int) + i else i
  if h : 0 ≤ j ∧ j.toNat < l.length then .ok (l.get ⟨j.toNat, h.2⟩)
  else .error .indexError

/-- `VectorStore.search(query, k)`: empty index short-circuits to `[]`;
otherwise embed the query, run FAISS, and keep each hit whose label is
`< len(self.documents)` — note FAISS's `-1` padding labels pass this test
and `self.documents[-1]` is the last record by Python indexing. -/
def VectorStore.search (st : VectorStore) (query : String) (k : Nat) :
    Except PyErr (List (String × Int × MetaDict)) :=
  if st.index.rows.length = 0 then .ok []
  else do
    let qv ← st.encode query
    let hits ← faissSearch st.index qv k
    hits.foldlM
      (fun acc p =>
        if p.1 < (st.documents.length : Int) then do
          let doc ← pyGet st.documents p.1
          pure (acc ++ [(doc.text, p.2, doc.metadata)])
        else pure acc)
      []

/-- `VectorStore.save(index_path, documents_path)`: writes the index blob,
then the documents pickle (so with equal paths the pickle wins). -/
def VectorStore.save (st : VectorStore) (ip dp : String) (fs : FS) : FS :=
  fun p =>
    if p = dp then some (.docsFile st.documents)
    else if p = ip then some (.indexFile st.index)
    else fs p

/-- `VectorStore.load(index_path, documents_path)`: a warned no-op when
either file is missing; otherwise `faiss.read_index` then `pickle.load`
replace the index and the documents wholesale, with no row-count check.
(In the source, a pickle failure after a successful `read_index` leaves
`self.index` replaced and `self.documents` stale before re-raising; the
error result here does not retain that torn state.) -/
def VectorStore.load (st : VectorStore) (ip dp : String) (fs : FS) :
    Except PyErr VectorStore :=
  match fs ip, fs dp with
  | none, _ => .ok st
  | _, none => .ok st
  | some (.docsFile _), some _ => .error .faissReadError
  | some (.indexFile _), some (.indexFile _) => .error .pickleLoadError
  | some (.indexFile ix), some (.docsFile ds) =>
    .ok { st with index := ix, documents := ds }

/-- `VectorStore.clear()`: fresh `IndexFlatL2(self.dimension)`, no documents. -/
def VectorStore.clear (st : VectorStore) : VectorStore :=
  { st with index := ⟨st.dimension, []⟩, documents := [] }

/-- `VectorStore.get_stats()`. -/
def VectorStore.get_stats (st : VectorStore) : Stats :=
  ⟨st.documents.length, st.index.rows.length, st.dimension, st.embedding_model_name⟩

/-- A fresh `VectorStore` built with the same embedding model as `st`
(hence the same encoder and dimension), as in scenario C's "new VectorIndex
with the same dimension". -/
def VectorStore.fresh (st : VectorStore) : VectorStore :=
  VectorStore.init st.embedding_model_name st.dimension st.encode

/-! ## Operation sequences over one store and one file system -/

/-- One `VectorStore` API call. -/
inductive Op where
  | add (texts : List String) (metadata : Option (List MetaDict))
  | search (q : String) (k : Nat)
  | save (ip dp : String)
  | load (ip dp : String)
  | clear

/-- A store together with the file system it persists to. -/
structure EState where
  store : VectorStore
  fs : FS

/-- Execute one operation; an `Except.error` is a raised exception that
aborts the run. -/
def stepOp (s : EState) : Op → Except PyErr EState
  | .add ts md => (s.store.add_documents ts md).map fun st' => { s with store := st' }
  | .search q k => (s.store.search q k).map fun _ => s
  | .save ip dp => .ok { s with fs := s.store.save ip dp s.fs }
  | .load ip dp => (s.store.load ip dp s.fs).map fun st' => { s with store := st' }
  | .clear => .ok { s with store := s.store.clear }

/-- Execute a sequence of operations. -/
def runOps (s : EState) : List Op → Except PyErr EState
  | [] => .ok s
  | op :: rest =>
    match stepOp s op with
    | .error e => .error e
    | .ok s' => runOps s' rest

/-- The initial state: a freshly constructed store over an empty directory. -/
def initState (name : String) (dim : Nat) (enc : String → Except PyErr Vec) : EState :=
  ⟨VectorStore.init name dim enc, fun _ => none⟩

/-- Row alignment between a metadata list and a row list, relative to an
encoder: same length, and the i-th row is the embedding of the i-th text. -/
def AlignedW (enc : String → Except PyErr Vec) (ds : List DocRec) (rows : List Vec) : Prop :=
  ds.length = rows.length ∧ ∀ p ∈ ds.zip rows, enc p.1.text = Except.ok p.2

/-- Row alignment of a store (spec: the hard invariant between
`self.index` and `self.documents`). -/
def Aligned (st : VectorStore) : Prop :=
  AlignedW st.encode st.documents st.index.rows

/-- The engine's fixed artifact path pair (`RAGEngine._save_vector_store` /
`_load_vector_store` always address one index path and one documents path). -/
def idxPath : String := "index.faiss"

/-- The engine's fixed documents artifact path. -/
def docsPath : String := "documents.pkl"

/-- Operations whose persistence calls address the engine's fixed path pair,
so every `load` reads a pair written together by one `save`. -/
def engineStyle : Op → Prop
  | .save ip dp => ip = idxPath ∧ dp = docsPath
  | .load ip dp => ip = idxPath ∧ dp = docsPath
  | _ => True

/-- The two fixed artifact slots hold a pair written by one `save` from an
aligned store (or are not both present yet). -/
def PairOK (enc : String → Except PyErr Vec) (fs : FS) : Prop :=
  (fs idxPath = none ∨ fs docsPath = none) ∨
  ∃ ix ds, fs idxPath = some (.indexFile ix) ∧ fs docsPath = some (.docsFile ds) ∧
    AlignedW enc ds ix.rows

/-! ## RAGEngine -/

/-- The dict returned by `RAGEngine.ingest_document`: either the success
record or the caught-exception record `{status: "error", message}`. -/
inductive IngestResult where
  | success (filename : String) (chunks_created : Nat) (file_type : String)
  | error (message : String)
  deriving DecidableEq

/-- The `RAGEngine` object: its store, the directory it persists to, and its
external collaborators (per-format extractors, the LangChain text splitter). -/
structure RAGEngine where
  store : VectorStore
  fs : FS
  extractors : String → String → Except PyErr String
  split_text : String → List String

/-- `RAGEngine.ingest_document(file_path)`: extract, split, build one
metadata record per chunk, add, save; every raise inside the body is caught
and converted to `{status: "error", message: str(e)}`, and the store is only
replaced after `add_documents` succeeded. -/
def RAGEngine.ingest_document (eng : RAGEngine) (file_path : String) :
    RAGEngine × IngestResult :=
  match DocumentProcessor.process_document eng.extractors file_path with
  | .error e => (eng, .error e.message)
  | .ok doc =>
    match eng.store.add_documents (eng.split_text doc.text)
        (some ((List.range (eng.split_text doc.text).length).map fun i =>
          MetaDict.chunkMeta doc.filename doc.file_type i)) with
    | .error e => (eng, .error e.message)
    | .ok st' =>
      ({ eng with store := st', fs := st'.save idxPath docsPath eng.fs },
       .success doc.filename (eng.split_text doc.text).length doc.file_type)

/-- `RAGEngine.retrieve_context(query, k)`: a direct call to
`VectorStore.search`, with no exception handling of its own. -/
def RAGEngine.retrieve_context (eng : RAGEngine) (q : String) (k : Nat) :
    Except PyErr (List (String × Int × MetaDict)) :=
  eng.store.search q k

/-- One entry of the `sources` list built by `generate_answer`. -/
structure SourceRef where
  filename : String
  chunk_index : Nat
  relevance_score : Int
  deriving DecidableEq

/-- The dict returned by `generate_answer` / `query`. -/
structure AnswerResult where
  answer : String
  sources : List SourceRef
  context_used : Bool
  deriving DecidableEq

/-- `RAGEngine.generate_answer(query, context, conversation_history)`: the
placeholder answer, the sources list in retrieval order, and
`context_used = len(context) > 0`.  The returned dict depends only on the
context (the query and history feed only the unused prompt template). -/
def RAGEngine.generate_answer (context : List (String × Int × MetaDict)) : AnswerResult :=
  { answer := "Based on the retrieved context, I found " ++ toString context.length ++
      " relevant documents. The actual answer generation will be integrated with the LLM service."
    sources := context.map fun c => ⟨c.2.2.getFilename, c.2.2.getChunkIndex, c.2.1⟩
    context_used := decide (0 < context.length) }

/-- `RAGEngine.query(query, conversation_history, k)`: retrieve, then
generate.  The retrieval call is outside any `try`, so its exceptions
propagate to the caller. -/
def RAGEngine.query (eng : RAGEngine) (q : String) (k : Nat) :
    Except PyErr AnswerResult :=
  (eng.retrieve_context q k).map fun ctx => RAGEngine.generate_answer ctx

/-- Decidable equality of `Except` results, for concrete evaluations. -/
instance {e a : Type} [DecidableEq e] [DecidableEq a] : DecidableEq (Except e a) :=
  fun x y =>
    match x, y with
    | .error u, .error v =>
      if h : u = v then isTrue (by rw [h]) else isFalse (by intro hc; cases hc; exact h rfl)
    | .ok u, .ok v =>
      if h : u = v then isTrue (by rw [h]) else isFalse (by intro hc; cases hc; exact h rfl)
    | .error _, .ok _ => isFalse (by intro hc; cases hc)
    | .ok _, .error _ => isFalse (by intro hc; cases hc)

/-! ## Concrete fixtures for witnesses and counterexamples -/

/-- A concrete deterministic embedder: one-dimensional, the text length. -/
def cEnc : String → Except PyErr Vec := fun s => .ok [(s.length : Int)]

/-- A store holding exactly one row (the embedding of `"a"`). -/
def cStore1 : VectorStore := ⟨"m", 1, cEnc, ⟨1, [[1]]⟩, [⟨"a", .empty⟩]⟩

/-- A freshly initialized store over `cEnc`. -/
def cStore0 : VectorStore := VectorStore.init "m" 1 cEnc

/-- A file system holding an index artifact with one row at `"p"` and a
documents artifact with two records at `"q"` (as left by two different
`save` calls). -/
def cFSBad : FS := fun p =>
  if p = "p" then some (.indexFile ⟨1, [[1]]⟩)
  else if p = "q" then some (.docsFile [⟨"a", .empty⟩, ⟨"b", .empty⟩])
  else none

/-- An engine over `cStore1` whose extractors and splitter always succeed. -/
def cEng : RAGEngine := ⟨cStore1, fun _ => none, fun _ _ => .ok "text", fun t => [t]⟩

/-- An engine whose store has one vector but no metadata records (as a
mismatched `load` can produce): retrieval raises `IndexError` on it. -/
def cBadEng : RAGEngine :=
  ⟨⟨"m", 1, cEnc, ⟨1, [[0]]⟩, []⟩, fun _ => none, fun _ _ => .ok "", fun t => [t]⟩

/-- An engine-style operation sequence: add, save, reload. -/
def c2Ops : List Op := [.add ["hi"] none, .save idxPath docsPath, .load idxPath docsPath]

/-- An operation sequence whose final `load` mixes the index artifact of the
first `save` (one row) with the documents artifact of the second (two
records). -/
def c2CexOps : List Op :=
  [.add ["a"] none, .save "p1" "q1", .clear, .add ["bb", "cc"] none,
   .save "p2" "q2", .load "p1" "q2"]

/-! ## Helper lemmas -/

/-- Inversion of a successful `add_documents` call: either the input was
empty and the store is unchanged, or the whole batch embedded successfully,
every embedding had the index dimension, and the rows and records were
appended. -/
lemma add_documents_ok (st : VectorStore) (texts : List String)
    (md : Option (List MetaDict)) (st' : VectorStore)
    (h : st.add_documents texts md = .ok st') :
    (texts = [] ∧ st' = st) ∨
    ∃ embs, encodeAll st.encode texts = .ok embs ∧
      (∀ v ∈ embs, v.length = st.index.d) ∧
      st' = { st with index := ⟨st.index.d, st.index.rows ++ embs⟩,
                      documents := st.documents ++ mkDocs md 0 texts } := by
  by_cases hts : texts.isEmpty
  · left
    rw [VectorStore.add_documents, if_pos hts] at h
    simp only [Except.ok.injEq] at h
    exact ⟨List.isEmpty_iff.mp hts, h.symm⟩
  · right
    rw [VectorStore.add_documents, if_neg hts] at h
    split at h
    · cases h
    · rename_i embs henc
      split at h
      · cases h
      · rename_i hfalse
        simp only [Except.ok.injEq] at h
        refine ⟨embs, henc, ?_, h.symm⟩
        intro v hv
        by_contra hvne
        exact hfalse (by
          simp only [List.any_eq_true, decide_eq_true_eq]
          exact ⟨v, hv, hvne⟩)

/-- `load` with either artifact missing keeps the prior store. -/
lemma load_missing_noop (st : VectorStore) (ip dp : String) (fs : FS)
    (h : fs ip = none ∨ fs dp = none) : st.load ip dp fs = .ok st := by
  rcases h with h | h
  · cases hdp : fs dp with
    | none => rw [VectorStore.load, h, hdp]
    | some c => cases c <;> rw [VectorStore.load, h, hdp]
  · cases hip : fs ip with
    | none => rw [VectorStore.load, hip, h]
    | some c => cases c <;> rw [VectorStore.load, hip, h]

/-- `load` with both artifacts present and well-typed replaces the index
and the documents wholesale, with no row-count verification. -/
lemma load_pair_replaces (st : VectorStore) (ip dp : String) (fs : FS)
    (ix : FaissIndex) (ds : List DocRec)
    (hip : fs ip = some (.indexFile ix)) (hdp : fs dp = some (.docsFile ds)) :
    st.load ip dp fs = .ok { st with index := ix, documents := ds } := by
  rw [VectorStore.load, hip, hdp]

/-- The chunking loop with a nonpositive step never escapes: once `start` is
below the text length it stays there, so every fuel bound is exhausted. -/
lemma chunkLoopF_stuck (text : List Char) (cs ov : Nat) (hov : cs ≤ ov) :
    ∀ (fuel : Nat) (start : Int), start < (text.length : Int) →
      chunkLoopF text cs ov fuel start = none := by
  intro fuel
  induction fuel with
  | zero => intro start h; simp [chunkLoopF, h]
  | succ fuel ih =>
    intro start h
    have hstep : start + ((cs : Int) - (ov : Int)) < (text.length : Int) := by
      have hco : (cs : Int) ≤ (ov : Int) := by exact_mod_cast hov
      omega
    simp [chunkLoopF, h, ih _ hstep]

/-- One unfolding step of `chunksFrom` while inside the text. -/
lemma chunksFrom_pos {text : List Char} {cs s start : Nat}
    (h1 : 0 < s) (h2 : start < text.length) :
    chunksFrom text cs s start =
      ((text.drop start).take cs) :: chunksFrom text cs s (start + s) := by
  rw [chunksFrom, dif_pos ⟨h1, h2⟩]

/-- `chunksFrom` stops once past the end of the text. -/
lemma chunksFrom_past {text : List Char} {cs s start : Nat}
    (h : text.length ≤ start) : chunksFrom text cs s start = [] := by
  rw [chunksFrom, dif_neg (by omega)]

/-! ## Claims -/

/-- Claim C10 (confirmed): on an empty `VectorStore`, for every query and
every `k`, `search` returns the empty list without raising, and `get_stats`
reports a stored chunk count of 0 and an index size of 0. -/
theorem C10_empty_search_stats (st : VectorStore) (q : String) (k : Nat)
    (h1 : st.index.rows = []) (h2 : st.documents = []) :
    st.search q k = .ok [] ∧
    st.get_stats.total_documents = 0 ∧ st.get_stats.index_size = 0 := by
  refine ⟨?_, ?_, ?_⟩ <;> simp [VectorStore.search, VectorStore.get_stats, h1, h2]

/-- Witness for C10 at the freshly initialized store. -/
theorem C10_empty_witness :
    (cStore0.index.rows = [] ∧ cStore0.documents = []) ∧
    (cStore0.search "q" 5 = .ok [] ∧
      cStore0.get_stats.total_documents = 0 ∧ cStore0.get_stats.index_size = 0) :=
  ⟨⟨rfl, rfl⟩, C10_empty_search_stats cStore0 "q" 5 rfl rfl⟩

/-- Claim C1 (code bug, evaluated at the failing input): on a store holding
one row, `search` with `k = 2` returns two results, not `min(1, 2) = 1`:
FAISS pads the missing hit with label `-1` and distance `FLT_MAX`, the
`idx < len(self.documents)` guard lets `-1` through, and Python's negative
indexing turns it into a duplicate of the last stored row. -/
theorem C1_search_padding_eval :
    cStore1.search "qq" 2 =
      .ok [("a", 1, MetaDict.empty), ("a", fltMax, MetaDict.empty)] := by
  decide

/-- Claim C4 (code bug, divergence at the bad inputs): `chunk_text` has no
validation of `overlap`; with `overlap ≥ chunk_size` and a nonempty text the
`while` loop's `start` never advances past the text length, so the call
neither rejects nor returns — no fuel bound makes the loop finish. -/
theorem C4_overlap_ge_size_diverges (text : List Char) (cs ov : Nat)
    (hov : cs ≤ ov) (hne : text ≠ []) :
    DocumentProcessor.chunk_text text cs ov = none ∧ ChunkDiverges text cs ov := by
  have hlen : (0 : Int) < (text.length : Int) := by
    exact_mod_cast List.length_pos.mpr hne
  exact ⟨chunkLoopF_stuck text cs ov hov _ 0 hlen,
         fun fuel => chunkLoopF_stuck text cs ov hov fuel 0 hlen⟩

/-- Witness for C4 at `text = "ab"`, `chunk_size = 1`, `overlap = 1`. -/
theorem C4_diverges_witness :
    (1 ≤ 1) ∧ ("ab".toList ≠ []) ∧
    (DocumentProcessor.chunk_text "ab".toList 1 1 = none ∧
      ChunkDiverges "ab".toList 1 1) :=
  ⟨le_refl 1, by decide, C4_overlap_ge_size_diverges "ab".toList 1 1 (le_refl 1) (by decide)⟩

/-- Claim C5 (amended): `load` is a warned no-op keeping the prior state when
either artifact is missing; when both artifacts are read successfully it
replaces the index and the documents wholesale with the loaded contents,
performing no row-count verification — a mismatched pair is activated as-is. -/
theorem C5_load_characterization (st : VectorStore) (ip dp : String) (fs : FS) :
    ((fs ip = none ∨ fs dp = none) → st.load ip dp fs = .ok st) ∧
    (∀ ix ds, fs ip = some (.indexFile ix) → fs dp = some (.docsFile ds) →
      st.load ip dp fs = .ok { st with index := ix, documents := ds }) :=
  ⟨load_missing_noop st ip dp fs,
   fun ix ds hip hdp => load_pair_replaces st ip dp fs ix ds hip hdp⟩

/-- Witness for C5: a missing documents artifact makes `load` keep the
prior store, and a well-typed pair is activated verbatim. -/
theorem C5_load_witness :
    ((cFSBad "nope" = none ∨ cFSBad "q" = none) ∧
      cStore0.load "nope" "q" cFSBad = .ok cStore0) ∧
    (cFSBad "p" = some (.indexFile ⟨1, [[1]]⟩) ∧
      cFSBad "q" = some (.docsFile [⟨"a", .empty⟩, ⟨"b", .empty⟩]) ∧
      cStore0.load "p" "q" cFSBad =
        .ok { cStore0 with index := ⟨1, [[1]]⟩,
                           documents := [⟨"a", .empty⟩, ⟨"b", .empty⟩] }) :=
  ⟨⟨Or.inl rfl, (C5_load_characterization cStore0 "nope" "q" cFSBad).1 (Or.inl rfl)⟩,
   ⟨rfl, rfl, (C5_load_characterization cStore0 "p" "q" cFSBad).2 _ _ rfl rfl⟩⟩

/-- Counterexample for C5 as stated: `load` of an index artifact with one
row paired with a documents artifact with two records activates the
mismatched state (one vector, two metadata records) instead of refusing and
falling back to the prior in-memory state. -/
theorem C5_mismatch_activated_cex :
    ((cStore0.load "p" "q" cFSBad).map fun st =>
      (st.index.rows.length, st.documents.length)) = .ok (1, 2) := by
  rfl

/-- Claim C6 (amended): `add_documents` never rejects a length mismatch:
each added text is paired with `metadata[i]` when `i < len(metadata)` and
with a synthesized empty record otherwise (extra metadata entries are
ignored), an empty `texts` input is a warned no-op, and on success the new
rows are appended after the existing rows and records, which are unchanged.
(A batch-embedding failure or a dimension mismatch raises before any
mutation; in this model such a call returns an error and no store.) -/
theorem C6_add_characterization (st : VectorStore) (texts : List String)
    (md : Option (List MetaDict)) :
    (texts = [] → st.add_documents texts md = .ok st) ∧
    (∀ embs, encodeAll st.encode texts = .ok embs →
      (∀ v ∈ embs, v.length = st.index.d) → texts ≠ [] →
      st.add_documents texts md =
        .ok { st with index := ⟨st.index.d, st.index.rows ++ embs⟩,
                      documents := st.documents ++ mkDocs md 0 texts }) ∧
    (∀ st', st.add_documents texts md = .ok st' →
      st'.documents.take st.documents.length = st.documents ∧
      st'.index.rows.take st.index.rows.length = st.index.rows) := by
  refine ⟨?_, ?_, ?_⟩
  · intro h
    subst h
    simp [VectorStore.add_documents]
  · intro embs henc hdim hne
    rw [VectorStore.add_documents, if_neg (by simpa using hne), henc]
    simpa using hdim
  · intro st' h
    rcases add_documents_ok st texts md st' h with ⟨-, rfl⟩ | ⟨embs, -, -, rfl⟩
    · exact ⟨by simp, by simp⟩
    · exact ⟨by simp [List.take_left], by simp [List.take_left]⟩

/-- Witness for C6 applying the success characterization at a concrete
store: one text, no metadata. -/
theorem C6_add_witness :
    (encodeAll cStore0.encode ["ab"] = .ok [[2]]) ∧
    (∀ v ∈ ([[2]] : List Vec), v.length = cStore0.index.d) ∧
    (["ab"] ≠ ([] : List String)) ∧
    cStore0.add_documents ["ab"] none =
      .ok { cStore0 with index := ⟨cStore0.index.d, cStore0.index.rows ++ [[2]]⟩,
                         documents := cStore0.documents ++ mkDocs none 0 ["ab"] } :=
  ⟨rfl, by decide, by decide,
   (C6_add_characterization cStore0 ["ab"] none).2.1 [[2]] rfl (by decide) (by decide)⟩

/-- Counterexample for C6 as stated: `add_documents` with two texts and one
metadata record is not rejected — both rows are appended, the second with a
synthesized empty record. -/
theorem C6_mismatch_not_rejected_cex :
    ((cStore0.add_documents ["a", "b"] (some [.chunkMeta "f" ".txt" 0])).map
        fun st => st.documents) =
      .ok [⟨"a", .chunkMeta "f" ".txt" 0⟩, ⟨"b", .empty⟩] := by
  rfl

/-- Claim C7 (confirmed): `save` then `load` into a fresh store built with
the same embedding model (hence matching dimension) reproduces the saved
store exactly, so every fixed query and `k` yields identical `search`
results (exact equality, hence within any tolerance) and identical stats —
in particular a store with 3 chunks reloads with `total_documents = 3`. -/
theorem C7_save_load_roundtrip (st : VectorStore) (ip dp : String)
    (hne : ip ≠ dp) (fs : FS) (q : String) (k : Nat) :
    ∃ l, st.fresh.load ip dp (st.save ip dp fs) = .ok l ∧
      l.search q k = st.search q k ∧ l.get_stats = st.get_stats := by
  refine ⟨st, ?_, rfl, rfl⟩
  have hip : st.save ip dp fs ip = some (.indexFile st.index) := by
    simp [VectorStore.save, hne]
  have hdp : st.save ip dp fs dp = some (.docsFile st.documents) := by
    simp [VectorStore.save]
  rw [VectorStore.load, hip, hdp]
  rfl

/-- Witness for C7 at a one-row store and distinct artifact paths. -/
theorem C7_roundtrip_witness :
    ("a" ≠ "b") ∧
    ∃ l, cStore1.fresh.load "a" "b" (cStore1.save "a" "b" fun _ => none) = .ok l ∧
      l.search "q" 1 = cStore1.search "q" 1 ∧ l.get_stats = cStore1.get_stats :=
  ⟨by decide, C7_save_load_roundtrip cStore1 "a" "b" (by decide) (fun _ => none) "q" 1⟩

/-- Claim C8 (confirmed): `ingest_document` is atomic and structured — an
error result (extraction failure including unsupported extensions, chunking
failure, embedding failure, dimension mismatch) leaves the engine exactly as
it was, and a success result means the whole pipeline ran: extraction
produced the document, and `add_documents` (which embeds the entire chunk
batch before touching the store) produced the new store that was then saved.
Every outcome is one of the two structured results (by the return type); no
exception escapes. -/
theorem C8_ingest_atomic (eng : RAGEngine) (path : String) :
    (∀ eng' m, eng.ingest_document path = (eng', .error m) → eng' = eng) ∧
    (∀ eng' fn n ft, eng.ingest_document path = (eng', .success fn n ft) →
      ∃ doc, DocumentProcessor.process_document eng.extractors path = .ok doc ∧
        fn = doc.filename ∧ ft = doc.file_type ∧
        n = (eng.split_text doc.text).length ∧
        eng.store.add_documents (eng.split_text doc.text)
            (some ((List.range (eng.split_text doc.text).length).map fun i =>
              MetaDict.chunkMeta doc.filename doc.file_type i)) = .ok eng'.store ∧
        eng'.fs = eng'.store.save idxPath docsPath eng.fs) := by
  constructor
  · intro eng' m h
    unfold RAGEngine.ingest_document at h
    split at h
    · injection h with h1 h2
      exact h1.symm
    · split at h
      · injection h with h1 h2
        exact h1.symm
      · injection h with h1 h2
        cases h2
  · intro eng' fn n ft h
    unfold RAGEngine.ingest_document at h
    split at h
    · injection h with h1 h2
      cases h2
    · rename_i doc hproc
      split at h
      · injection h with h1 h2
        cases h2
      · rename_i st' hadd
        injection h with h1 h2
        injection h2 with hfn hn hft
        subst h1 hfn hn hft
        exact ⟨doc, hproc, rfl, rfl, rfl, hadd, rfl⟩

/-- Witness for C8: an unsupported extension produces a structured error
result and leaves the engine untouched. -/
theorem C8_ingest_witness :
    (cEng.ingest_document "f.zzz" = (cEng, .error "Unsupported file type: .zzz")) ∧
    (cEng.ingest_document "f.zzz").1 = cEng :=
  ⟨rfl, (C8_ingest_atomic cEng "f.zzz").1 cEng "Unsupported file type: .zzz" rfl⟩

/-- Claim C9 (amended): exceptions raised during retrieval propagate out of
`query` unchanged (there is no handler around `retrieve_context`), and on
the success path `context_used` equals whether the number of retrieved
results is positive. -/
theorem C9_query_characterization (eng : RAGEngine) (q : String) (k : Nat) :
    (∀ e, eng.retrieve_context q k = .error e → eng.query q k = .error e) ∧
    (∀ ctx, eng.retrieve_context q k = .ok ctx →
      eng.query q k = .ok (RAGEngine.generate_answer ctx) ∧
      (RAGEngine.generate_answer ctx).context_used = decide (0 < ctx.length)) := by
  constructor
  · intro e h
    unfold RAGEngine.query
    rw [h]
    rfl
  · intro ctx h
    refine ⟨?_, rfl⟩
    unfold RAGEngine.query
    rw [h]
    rfl

/-- Witness for C9's success path at the one-row store. -/
theorem C9_query_witness :
    (cEng.retrieve_context "qq" 2 =
      .ok [("a", 1, MetaDict.empty), ("a", fltMax, MetaDict.empty)]) ∧
    (cEng.query "qq" 2 =
      .ok (RAGEngine.generate_answer
        [("a", 1, MetaDict.empty), ("a", fltMax, MetaDict.empty)]) ∧
      (RAGEngine.generate_answer
        [("a", 1, MetaDict.empty), ("a", fltMax, MetaDict.empty)]).context_used =
        decide (0 < ([("a", 1, MetaDict.empty), ("a", fltMax, MetaDict.empty)] :
          List (String × Int × MetaDict)).length)) :=
  ⟨by decide, (C9_query_characterization cEng "qq" 2).2
    [("a", 1, MetaDict.empty), ("a", fltMax, MetaDict.empty)] (by decide)⟩

/-- Counterexample for C9 as stated: on an engine whose store has one vector
but no metadata records, retrieval raises `IndexError`
(`self.documents[-1]` on an empty list) and `query` propagates it to the
caller instead of returning an empty-context result. -/
theorem C9_retrieval_error_propagates_cex :
    cBadEng.query "x" 5 = .error .indexError := by
  decide

/-- With a positive step, the fueled loop computes the closed form as soon
as the fuel covers the remaining length. -/
lemma chunkLoopF_eq_chunksFrom (text : List Char) (cs ov : Nat) (hov : ov < cs) :
    ∀ (fuel start : Nat), text.length ≤ start + fuel * (cs - ov) →
      chunkLoopF text cs ov fuel (start : Int) =
        some (chunksFrom text cs (cs - ov) start) := by
  intro fuel
  induction fuel with
  | zero =>
    intro start h
    have hge : ¬ ((start : Int) < (text.length : Int)) := by
      simp only [Nat.zero_mul, Nat.add_zero] at h
      omega
    rw [chunksFrom, dif_neg (by omega : ¬ (0 < cs - ov ∧ start < text.length))]
    simp [chunkLoopF, hge]
  | succ fuel ih =>
    intro start h
    by_cases hlt : start < text.length
    · have hcast : (start : Int) < (text.length : Int) := by exact_mod_cast hlt
      have harith : (start : Int) + ((cs : Int) - (ov : Int)) =
          ((start + (cs - ov) : Nat) : Int) := by
        push_cast [Nat.cast_sub hov.le]
        ring
      have hfuel : text.length ≤ (start + (cs - ov)) + fuel * (cs - ov) := by
        have hmul : (fuel + 1) * (cs - ov) = fuel * (cs - ov) + (cs - ov) :=
          Nat.succ_mul fuel (cs - ov)
        omega
      have hrec := ih (start + (cs - ov)) hfuel
      rw [chunksFrom, dif_pos ⟨by omega, hlt⟩]
      rw [show chunkLoopF text cs ov (fuel + 1) (start : Int) =
          (if (start : Int) < (text.length : Int) then
            match chunkLoopF text cs ov fuel
                ((start : Int) + ((cs : Int) - (ov : Int))) with
            | none => none
            | some rest => some (pySlice text start (start + (cs : Int)) :: rest)
          else some []) from rfl]
      rw [if_pos hcast, harith, hrec]
      have hslice : pySlice text (start : Int) ((start : Int) + (cs : Int)) =
          (text.drop start).take cs := by
        unfold pySlice
        have e1 : ((start : Int)).toNat = start := by omega
        have e2 : (((start : Int) + (cs : Int)) - (start : Int)).toNat = cs := by omega
        rw [e1, e2]
      rw [hslice]
    · have hge : ¬ ((start : Int) < (text.length : Int)) := by omega
      rw [chunksFrom, dif_neg (by omega : ¬ (0 < cs - ov ∧ start < text.length))]
      simp [chunkLoopF, hge]

/-- `chunk_text` with a valid overlap terminates with the closed form. -/
lemma chunk_text_eq_chunksFrom (text : List Char) (cs ov : Nat) (hov : ov < cs) :
    DocumentProcessor.chunk_text text cs ov =
      some (chunksFrom text cs (cs - ov) 0) := by
  apply chunkLoopF_eq_chunksFrom text cs ov hov
  have hs : 1 ≤ cs - ov := by omega
  have := Nat.mul_le_mul_left (text.length + 1) hs
  omega

/-- The layout of the closed-form chunks: they are the `chunk_size`-slices
taken every `s` characters, consecutive windows cover every position, and
the final window reaches past the end of the text. -/
lemma chunksFrom_spec (text : List Char) (cs s : Nat) (hs : 0 < s) (hcs : s ≤ cs) :
    ∀ (m start : Nat), text.length - start ≤ m →
      ∃ n, chunksFrom text cs s start =
            (List.range n).map (fun i => (text.drop (start + i * s)).take cs) ∧
        (∀ j, start ≤ j → j < text.length →
          ∃ i, i < n ∧ start + i * s ≤ j ∧ j < start + i * s + cs) ∧
        (start < text.length →
          n ≠ 0 ∧ start + (n - 1) * s < text.length ∧
            text.length ≤ start + (n - 1) * s + cs) := by
  intro m
  induction m with
  | zero =>
    intro start h
    refine ⟨0, ?_, ?_, ?_⟩
    · rw [chunksFrom, dif_neg (by omega : ¬ (0 < s ∧ start < text.length))]
      rfl
    · intro j hj1 hj2
      omega
    · intro hlt
      omega
  | succ m ih =>
    intro start h
    by_cases hlt : start < text.length
    · obtain ⟨n', h1, h2, h3⟩ := ih (start + s) (by omega)
      refine ⟨n' + 1, ?_, ?_, ?_⟩
      · rw [chunksFrom, dif_pos ⟨hs, hlt⟩, h1, List.range_succ_eq_map,
          List.map_cons, List.map_map]
        refine congrArg₂ _ (by simp) ?_
        refine congrArg₂ _ (funext fun i => ?_) rfl
        simp only [Function.comp_apply]
        have : start + s + i * s = start + (i + 1) * s := by ring
        rw [this]
      · intro j hj1 hj2
        by_cases hcase : j < start + cs
        · exact ⟨0, by omega, by omega, by omega⟩
        · obtain ⟨i, hi, hle, hlt2⟩ := h2 j (by omega) hj2
          have hmul : (i + 1) * s = i * s + s := by ring
          have hmul2 : Nat.succ i * s = i * s + s := hmul
          exact ⟨i + 1, by omega, by omega, by omega⟩
      · intro _
        by_cases hlt2 : start + s < text.length
        · obtain ⟨hn0, hlo, hhi⟩ := h3 hlt2
          have hn1 : 1 ≤ n' := Nat.pos_of_ne_zero hn0
          have hmul : n' * s = (n' - 1) * s + s := by
            obtain ⟨k, rfl⟩ : ∃ k, n' = k + 1 := ⟨n' - 1, by omega⟩
            simp [Nat.add_mul]
          refine ⟨by omega, ?_, ?_⟩ <;>
            simp only [Nat.add_sub_cancel] <;> omega
        · have hnil : chunksFrom text cs s (start + s) = [] := by
            rw [chunksFrom, dif_neg (by omega : ¬ (0 < s ∧ start + s < text.length))]
          rw [hnil] at h1
          have hn' : n' = 0 := by
            have hlen := congrArg List.length h1
            simp at hlen
            omega
          subst hn'
          refine ⟨one_ne_zero, ?_, ?_⟩ <;> simp only [Nat.add_sub_cancel, Nat.zero_mul] <;> omega
    · refine ⟨0, ?_, ?_, ?_⟩
      · rw [chunksFrom, dif_neg (by omega : ¬ (0 < s ∧ start < text.length))]
        rfl
      · intro j hj1 hj2
        omega
      · intro hc
        omega

/-- Claim C3 (confirmed): for every text, `chunk_size > 0` and
`0 ≤ overlap < chunk_size`, the chunks are exactly the
`text[start : start + chunk_size]` slices (clipped at the end of the text)
at starts `0, s, 2*s, ...` for `s = chunk_size - overlap` (consecutive
starts exactly `s` apart), these windows cover `[0, len(text))`, and the
last chunk's window reaches the end of the text, so the last chunk ends
exactly at `len(text)`; concretely, a text of length 2500 with
`chunk_size = 1000` and `overlap = 200` yields 4 chunks at starts
`[0, 800, 1600, 2400]`, the last being `text[2400:2500]` of length 100. -/
theorem C3_chunk_text_layout (text : List Char) (cs ov : Nat)
    (_hcs : 0 < cs) (hov : ov < cs) :
    (∃ n, DocumentProcessor.chunk_text text cs ov =
        some ((List.range n).map fun i => (text.drop (i * (cs - ov))).take cs) ∧
      (∀ j < text.length, ∃ i, i < n ∧ i * (cs - ov) ≤ j ∧ j < i * (cs - ov) + cs) ∧
      (text ≠ [] → n ≠ 0 ∧ (n - 1) * (cs - ov) < text.length ∧
        text.length ≤ (n - 1) * (cs - ov) + cs)) ∧
    DocumentProcessor.chunk_text (List.replicate 2500 'a') 1000 200 =
      some [List.replicate 1000 'a', List.replicate 1000 'a',
            List.replicate 900 'a', List.replicate 100 'a'] := by
  constructor
  · obtain ⟨n, h1, h2, h3⟩ :=
      chunksFrom_spec text cs (cs - ov) (by omega) (by omega) text.length 0 (by omega)
    refine ⟨n, ?_, ?_, ?_⟩
    · rw [chunk_text_eq_chunksFrom text cs ov hov, h1]
      simp
    · intro j hj
      obtain ⟨i, hi, h4, h5⟩ := h2 j (Nat.zero_le j) hj
      exact ⟨i, hi, by omega, by omega⟩
    · intro hne
      obtain ⟨hn0, hlo, hhi⟩ := h3 (List.length_pos.mpr hne)
      exact ⟨hn0, by omega, by omega⟩
  · have hlen : (List.replicate 2500 'a').length = 2500 := List.length_replicate 2500 'a'
    rw [chunk_text_eq_chunksFrom _ _ _ (by norm_num)]
    norm_num
    rw [chunksFrom_pos (by norm_num) (by rw [hlen]; norm_num),
      chunksFrom_pos (by norm_num) (by rw [hlen]; norm_num),
      chunksFrom_pos (by norm_num) (by rw [hlen]; norm_num),
      chunksFrom_pos (by norm_num) (by rw [hlen]; norm_num),
      chunksFrom_past (by rw [hlen]; norm_num)]
    simp only [List.drop_replicate, List.take_replicate]
    norm_num

/-- Witness for C3 at `text = "xyz"`, `chunk_size = 2`, `overlap = 1`. -/
theorem C3_chunk_text_witness :
    (0 < 2) ∧ (1 < 2) ∧
    ((∃ n, DocumentProcessor.chunk_text "xyz".toList 2 1 =
        some ((List.range n).map fun i => ("xyz".toList.drop (i * (2 - 1))).take 2) ∧
      (∀ j < "xyz".toList.length,
        ∃ i, i < n ∧ i * (2 - 1) ≤ j ∧ j < i * (2 - 1) + 2) ∧
      ("xyz".toList ≠ [] → n ≠ 0 ∧ (n - 1) * (2 - 1) < "xyz".toList.length ∧
        "xyz".toList.length ≤ (n - 1) * (2 - 1) + 2)) ∧
    DocumentProcessor.chunk_text (List.replicate 2500 'a') 1000 200 =
      some [List.replicate 1000 'a', List.replicate 1000 'a',
            List.replicate 900 'a', List.replicate 100 'a']) :=
  ⟨by decide, by decide,
   C3_chunk_text_layout "xyz".toList 2 1 (by decide) (by decide)⟩

/-- A successful batch embedding aligns the records `add_documents` builds
with the embeddings it appends: one record per text, in order, each row the
embedding of its record's text. -/
lemma encodeAll_mkDocs_aligned (enc : String → Except PyErr Vec)
    (md : Option (List MetaDict)) :
    ∀ (ts : List String) (i : Nat) (vs : List Vec),
      encodeAll enc ts = .ok vs → AlignedW enc (mkDocs md i ts) vs := by
  intro ts
  induction ts with
  | nil =>
    intro i vs h
    simp only [encodeAll, Except.ok.injEq] at h
    subst h
    exact ⟨rfl, by simp [mkDocs]⟩
  | cons t ts ih =>
    intro i vs h
    rw [encodeAll] at h
    split at h
    · cases h
    · rename_i v henc
      split at h
      · cases h
      · rename_i vs' hrest
        simp only [Except.ok.injEq] at h
        subst h
        obtain ⟨hlen, hmem⟩ := ih (i + 1) vs' hrest
        refine ⟨by simp [mkDocs, hlen], ?_⟩
        intro p hp
        simp only [mkDocs, List.zip_cons_cons, List.mem_cons] at hp
        rcases hp with rfl | hp
        · exact henc
        · exact hmem p hp

/-- Row alignment is preserved by appending aligned blocks. -/
lemma AlignedW.append {enc : String → Except PyErr Vec}
    {d1 d2 : List DocRec} {r1 r2 : List Vec}
    (h1 : AlignedW enc d1 r1) (h2 : AlignedW enc d2 r2) :
    AlignedW enc (d1 ++ d2) (r1 ++ r2) := by
  refine ⟨by simp [h1.1, h2.1], ?_⟩
  intro p hp
  rw [List.zip_append h1.1] at hp
  rcases List.mem_append.mp hp with h | h
  · exact h1.2 p h
  · exact h2.2 p h

/-- One engine-style operation preserves the encoder, the store's row
alignment, and the well-pairedness of the two fixed artifact slots. -/
lemma stepOp_preserves (enc : String → Except PyErr Vec) (s s' : EState) (op : Op)
    (hop : engineStyle op) (henc : s.store.encode = enc)
    (halign : Aligned s.store) (hpair : PairOK enc s.fs)
    (hstep : stepOp s op = .ok s') :
    s'.store.encode = enc ∧ Aligned s'.store ∧ PairOK enc s'.fs := by
  cases op with
  | add ts md =>
    simp only [stepOp] at hstep
    cases hadd : s.store.add_documents ts md with
    | error e => rw [hadd] at hstep; cases hstep
    | ok st2 =>
      rw [hadd] at hstep
      simp only [Except.map, Except.ok.injEq] at hstep
      subst hstep
      rcases add_documents_ok s.store ts md st2 hadd with ⟨-, rfl⟩ | ⟨embs, hencAll, -, rfl⟩
      · exact ⟨henc, halign, hpair⟩
      · refine ⟨henc, ?_, hpair⟩
        exact AlignedW.append halign
          (encodeAll_mkDocs_aligned s.store.encode md ts 0 embs hencAll)
  | search q k =>
    simp only [stepOp] at hstep
    cases hs : s.store.search q k with
    | error e => rw [hs] at hstep; cases hstep
    | ok r =>
      rw [hs] at hstep
      simp only [Except.map, Except.ok.injEq] at hstep
      subst hstep
      exact ⟨henc, halign, hpair⟩
  | save ip dp =>
    obtain ⟨rfl, rfl⟩ := hop
    simp only [stepOp, Except.ok.injEq] at hstep
    subst hstep
    refine ⟨henc, halign, Or.inr ⟨s.store.index, s.store.documents, ?_, ?_, ?_⟩⟩
    · show s.store.save idxPath docsPath s.fs idxPath =
        some (FileContent.indexFile s.store.index)
      rw [VectorStore.save]
      rw [if_neg (by decide : ¬ (idxPath = docsPath)), if_pos rfl]
    · show s.store.save idxPath docsPath s.fs docsPath =
        some (FileContent.docsFile s.store.documents)
      rw [VectorStore.save, if_pos rfl]
    · rw [← henc]
      exact halign
  | load ip dp =>
    obtain ⟨rfl, rfl⟩ := hop
    simp only [stepOp] at hstep
    rcases hpair with hmiss | ⟨ix, ds, hip, hdp, hal⟩
    · rw [load_missing_noop s.store idxPath docsPath s.fs hmiss] at hstep
      simp only [Except.map, Except.ok.injEq] at hstep
      subst hstep
      exact ⟨henc, halign, Or.inl hmiss⟩
    · rw [load_pair_replaces s.store idxPath docsPath s.fs ix ds hip hdp] at hstep
      simp only [Except.map, Except.ok.injEq] at hstep
      subst hstep
      refine ⟨henc, ?_, Or.inr ⟨ix, ds, hip, hdp, hal⟩⟩
      show AlignedW s.store.encode ds ix.rows
      rw [henc]
      exact hal
  | clear =>
    simp only [stepOp, Except.ok.injEq] at hstep
    subst hstep
    exact ⟨henc, ⟨rfl, by simp [VectorStore.clear]⟩, hpair⟩

/-- Running a sequence of engine-style operations preserves the invariant. -/
lemma runOps_preserves (enc : String → Except PyErr Vec) :
    ∀ (ops : List Op) (s s' : EState),
      (∀ op ∈ ops, engineStyle op) →
      s.store.encode = enc → Aligned s.store → PairOK enc s.fs →
      runOps s ops = .ok s' →
      s'.store.encode = enc ∧ Aligned s'.store ∧ PairOK enc s'.fs := by
  intro ops
  induction ops with
  | nil =>
    intro s s' _ henc halign hpair h
    simp only [runOps, Except.ok.injEq] at h
    subst h
    exact ⟨henc, halign, hpair⟩
  | cons op rest ih =>
    intro s s' hops henc halign hpair h
    rw [runOps] at h
    cases hstep : stepOp s op with
    | error e => rw [hstep] at h; cases h
    | ok s1 =>
      rw [hstep] at h
      obtain ⟨h1, h2, h3⟩ := stepOp_preserves enc s s1 op
        (hops op (List.mem_cons_self op rest)) henc halign hpair hstep
      exact ih s1 s' (fun o ho => hops o (List.mem_cons_of_mem op ho)) h1 h2 h3 h

/-- Claim C2 (amended): after every sequence of `VectorStore` operations in
which each `save` and `load` addresses the engine's fixed artifact path pair
(so every `load` reads a pair written together by one `save`, as
`RAGEngine._save_vector_store`/`_load_vector_store` do), row alignment
holds: the number of stored vectors equals the number of metadata records,
and the i-th vector is the embedding of the i-th record's text.  (The code
itself never verifies pairing: a `load` mixing artifacts of two different
`save` calls breaks the invariant — see the counterexample.) -/
theorem C2_row_alignment_engine_paths (name : String) (dim : Nat)
    (enc : String → Except PyErr Vec) (ops : List Op)
    (hops : ∀ op ∈ ops, engineStyle op) (s' : EState)
    (hrun : runOps (initState name dim enc) ops = .ok s') :
    Aligned s'.store :=
  (runOps_preserves enc ops (initState name dim enc) s' hops rfl
    ⟨rfl, by simp [initState, VectorStore.init]⟩ (Or.inl (Or.inl rfl)) hrun).2.1

/-- Witness for C2 at a concrete add/save/load sequence. -/
theorem C2_row_alignment_witness :
    (∀ op ∈ c2Ops, engineStyle op) ∧
    ∃ s', runOps (initState "m" 1 cEnc) c2Ops = .ok s' ∧ Aligned s'.store := by
  have hops : ∀ op ∈ c2Ops, engineStyle op := by
    intro op hop
    simp only [c2Ops, List.mem_cons, List.not_mem_nil, or_false] at hop
    rcases hop with rfl | rfl | rfl
    · exact trivial
    · exact ⟨rfl, rfl⟩
    · exact ⟨rfl, rfl⟩
  exact ⟨hops, _, rfl,
    C2_row_alignment_engine_paths "m" 1 cEnc c2Ops hops _ rfl⟩

/-- Counterexample for C2 as stated (over arbitrary operation sequences):
saving a one-row store at one path pair, then a two-row store at another,
then loading the index artifact of the first together with the documents
artifact of the second leaves the store with 1 vector and 2 metadata
records — row alignment does not survive every operation sequence. -/
theorem C2_cross_path_load_cex :
    ((runOps (initState "m" 1 cEnc) c2CexOps).map fun s =>
        (s.store.index.rows.length, s.store.documents.length)) = .ok (1, 2) := by
  rfl
